import Mathlib

/-!
Verification development for the `delete-removed-files` tool (`src/main.rs`).

The program lists a RAW folder and its `JPG` subfolder, keeps the JPEG records
whose stem matches no RAW stem, and deletes those via Finder automation.  The
definitions below are a shallow embedding of the source: OS interactions
(executable-path lookup, `read_dir`, `osascript` invocations) become explicit
environment data, byte strings from the OS become `RawName` values, and the
pure logic (`Filename` parsing, extension filtering, `find_duplicate_file`,
outcome classification, the `main` pipeline) is translated function by
function.
-/

/-- An OS byte string (`OsStr` contents): `some c` is one character of valid
text, `none` stands for a byte that is not representable as text.  A `'.'` is
always a valid character, so splitting a file name at dots is well defined on
raw names, matching the byte-level scan Rust performs. -/
abbrev RawName := List (Option Char)

/-- Models `OsStr::to_str` / `String::from_utf8`: the text when every unit is
representable, `none` otherwise. -/
def rawToStr (n : RawName) : Option String :=
  if n.all Option.isSome then some (String.mk (n.filterMap id)) else none

/-- A valid text viewed as an OS byte string. -/
def strToRaw (s : String) : RawName := s.toList.map some

/-- `const JPG_FOLDER: &str = "JPG"`. -/
def JPG_FOLDER : String := "JPG"

/-- `const RAW_ALLOWED_FILE_EXTENSIONS: &[&str] = &["arw"]`. -/
def RAW_ALLOWED_FILE_EXTENSIONS : List String := ["arw"]

/-- `const JPG_ALLOWED_FILE_EXTENSIONS: &[&str] = &["jpg", "jpeg"]`. -/
def JPG_ALLOWED_FILE_EXTENSIONS : List String := ["jpg", "jpeg"]

/-- Splits a raw name at its LAST `'.'`, returning the parts before and after
it; `none` when the name has no dot.  This is the byte scan
(`rsplitn(2, b'.')`) inside Rust's `split_file_at_dot`. -/
def splitLastDot : RawName → Option (RawName × RawName)
  | [] => none
  | c :: cs =>
    match splitLastDot cs with
    | some (b, a) => some (c :: b, a)
    | none => if c = some '.' then some ([], cs) else none

/-- Models Rust `std::path`'s `split_file_at_dot`: the file name `".."` and a
name whose only dot is the leading character are returned whole with no
extension part; otherwise the name is split at the last dot. -/
def rsplitFileAtDot (file : RawName) : Option RawName × Option RawName :=
  if file = [some '.', some '.'] then (some file, none)
  else
    match splitLastDot file with
    | none => (none, some file)
    | some (b, a) => if b = [] then (some file, none) else (some b, some a)

/-- Models `Path::file_stem` applied to a path whose final component is the
base name `file`: `before.or(after)` of the dot split. -/
def fileStem (file : RawName) : Option RawName :=
  ((rsplitFileAtDot file).1).or (rsplitFileAtDot file).2

/-- Models `Path::extension`: `before.and(after)` of the dot split, so the
part after the last dot, absent when the name has no dot, when its only dot
is the leading character, or when the name is `".."`. -/
def pathExtension (file : RawName) : Option RawName :=
  match rsplitFileAtDot file with
  | (some _, a) => a
  | (none, _) => none

/-- Models `str::to_lowercase` on the ASCII range; the repository only ever
compares ASCII extension texts. -/
def toLowercase (s : String) : String := String.mk (s.toList.map Char.toLower)

/-- Models the chain
`opt.map(|s| s.to_str().or(Some("")).unwrap()).or(Some("")).unwrap()`:
an absent component or an untranslatable one degrades to `""`. -/
def osToStrOrEmpty (o : Option RawName) : String :=
  match o with
  | none => ""
  | some r => (rawToStr r).getD ""

/-- `struct Filename { filename, name, extension }`. -/
structure Filename where
  filename : String
  name : String
  extension : String
deriving DecidableEq, Repr

/-- Models `impl From<DirEntry> for Filename`.  A directory entry is its base
name: `dir_entry.path()` joins the folder with that base name, after which
`file_name`, `file_stem` and `extension` all act on the base name (entries
from `read_dir` are never `"."` or `".."` and never contain a separator). -/
def Filename.fromDirEntry (entry : RawName) : Filename :=
  { filename := osToStrOrEmpty (some entry)
    name := osToStrOrEmpty (fileStem entry)
    extension := toLowercase (osToStrOrEmpty (pathExtension entry)) }

/-- The fatal error kinds of the run, all carried as `anyhow` errors in the
source: failure to resolve the working folder, to list a folder, or to
localize a path. -/
inductive FatalError
  | pathResolutionError
  | ioError
  | conversionError
deriving DecidableEq, Repr

/-- A folder as seen by `fs::read_dir`: `none` when the folder cannot be
opened for listing at all, otherwise the entry stream in which an entry
`none` is one the iterator yields as `Err`. -/
abbrev DirListing := Option (List (Option RawName))

/-- Models `get_filenames_of_folder`: fails when the folder cannot be read,
otherwise converts every `Ok` entry and silently drops every `Err` entry
(`filter_map`). -/
def get_filenames_of_folder (dir : DirListing) : Except FatalError (List Filename) :=
  match dir with
  | none => .error .ioError
  | some entries =>
    .ok (entries.filterMap (fun file => file.map Filename.fromDirEntry))

/-- Models `get_filenames_of_folder_with_valid_extension`: scan, then keep the
records whose `extension` field is a member of `allowed_extensions` (exact
string membership, `Vec::contains`). -/
def get_filenames_of_folder_with_valid_extension
    (dir : DirListing) (allowed_extensions : List String) :
    Except FatalError (List Filename) :=
  (get_filenames_of_folder dir).map (fun files =>
    files.filter (fun file => allowed_extensions.contains file.extension))

/-- Models `find_duplicate_file`: collect the stems of `compare_files`, keep
the records of `target_files` whose stem is not among them. -/
def find_duplicate_file (compare_files target_files : List Filename) : List Filename :=
  let compare_names := compare_files.map (fun filename => filename.name)
  target_files.filter (fun filename => !compare_names.contains filename.name)

/-- Models `std::process::Output` for a process that did launch: the exit
status collapsed to its `success()` bit, and the stderr bytes already passed
through `String::from_utf8_lossy`. -/
structure OutputM where
  success : Bool
  stderr : String
deriving DecidableEq, Repr

/-- The per-file deletion outcome the program reports on standard output. -/
inductive Outcome
  | Deleted
  | NotFound
  | OtherFailure (message : String)
deriving DecidableEq, Repr

/-- Substring occurrence on character lists, used to model `str::contains`. -/
def listHasSub (pat : List Char) : List Char → Bool
  | [] => pat.isEmpty
  | c :: cs => pat.isPrefixOf (c :: cs) || listHasSub pat cs

/-- Models `str::contains(pat)`: `pat` occurs contiguously inside `s`. -/
def strHasSub (s pat : String) : Bool := listHasSub pat.toList s.toList

/-- Models `print_result`: classifies a finished deletion process.  Success
prints the "Deleted" line; a failure whose stderr carries the AppleScript
`29:106` signature prints the "couldn't find the file" line; any other
failure prints the raw stderr text. -/
def print_result (output : OutputM) : Outcome :=
  if output.success then .Deleted
  else if strHasSub output.stderr "29:106" then .NotFound
  else .OtherFailure output.stderr

/-- The `with_context` diagnostic `delete_files` attaches when the
`osascript` command itself fails to launch. -/
def deleteLaunchFailureDiag (filename hfs_folder_path : String) : String :=
  "❌ Could not delete file \"" ++ filename ++ "\" of folder \"" ++
    hfs_folder_path ++ "\", cause the command failed"

/-- Models `delete_files`.  `osaDelete filename folder` is the result of the
Finder-deletion `osascript` call: `none` models `.output()` returning `Err`
(the process failed to launch, reported with the fixed context diagnostic and
printed by `main` without aborting), `some out` a process that ran and is
classified by `print_result`. -/
def delete_files (osaDelete : String → String → Option OutputM)
    (filename : Filename) (hfs_folder_path : String) : Outcome :=
  match osaDelete filename.filename hfs_folder_path with
  | none => .OtherFailure (deleteLaunchFailureDiag filename.filename hfs_folder_path)
  | some output => print_result output

/-- Models `convert_to_hfs_path`.  `osa p` is the stdout byte string of the
`POSIX file "p" as alias as text` invocation, `none` when `.output()` fails;
the stdout bytes are validated as text (`String::from_utf8`) and trimmed. -/
def convert_to_hfs_path (osa : String → Option RawName) (path : RawName) :
    Except FatalError String :=
  match rawToStr path with
  | none => .error .conversionError
  | some p =>
    match osa p with
    | none => .error .conversionError
    | some stdoutBytes =>
      match rawToStr stdoutBytes with
      | none => .error .conversionError
      | some s => .ok s.trim

/-- Models `PathBuf::join` for a base path with no trailing separator, the
form `get_pwd` produces. -/
def joinPath (base child : String) : String := base ++ "/" ++ child

/-- The OS interactions one run of `main` can observe.  `pwd` is the result
of `get_pwd` (executable directory as text, `none` when any of its three
steps fails); `osaLocalize` and `osaDelete` are the two `osascript`
boundaries; `raw_dir` and `jpg_dir` are the two `read_dir` results. -/
structure Env where
  pwd : Option String
  osaLocalize : String → Option RawName
  raw_dir : DirListing
  jpg_dir : DirListing
  osaDelete : String → String → Option OutputM

/-- One observable event of a run: aborting with a fatal error, attempting
one deletion and reporting its outcome, or printing the final "Done" line. -/
inductive Event
  | fatal (e : FatalError)
  | deletionAttempt (filename : String) (outcome : Outcome)
  | done
deriving DecidableEq, Repr

/-- Models `main` as the sequence of observable events of one run, in program
order: resolve the working folder, localize the `JPG` subfolder, scan the RAW
folder, scan the JPG folder (each failure aborting at once with a fatal
event), then attempt every unmatched deletion and finish. -/
def main_run (env : Env) : List Event :=
  match env.pwd with
  | none => [.fatal .pathResolutionError]
  | some raw_folder_path =>
    match convert_to_hfs_path env.osaLocalize
        (strToRaw (joinPath raw_folder_path JPG_FOLDER)) with
    | .error e => [.fatal e]
    | .ok jpg_folder_path_hfs =>
      match get_filenames_of_folder_with_valid_extension env.raw_dir
          RAW_ALLOWED_FILE_EXTENSIONS with
      | .error e => [.fatal e]
      | .ok raw_files =>
        match get_filenames_of_folder_with_valid_extension env.jpg_dir
            JPG_ALLOWED_FILE_EXTENSIONS with
        | .error e => [.fatal e]
        | .ok jpg_files =>
          (find_duplicate_file raw_files jpg_files).map
            (fun file => .deletionAttempt file.filename
              (delete_files env.osaDelete file jpg_folder_path_hfs))
          ++ [.done]

/-- The process exit status: `main` returns `Ok(())` exactly when no fatal
event occurred (individual deletion outcomes are only printed). -/
def main_exit_ok (env : Env) : Bool :=
  (main_run env).all (fun ev => match ev with | .fatal _ => false | _ => true)

/-- Spec-side definition (for comparison with the code): case-insensitive
string equality, the membership test §8 of the specification describes for
`scan_filtered`. -/
def eqIgnoreCase (a b : String) : Bool := toLowercase a == toLowercase b

/-- Spec-side definition (for comparison with the code): the specification's
extension rule for the filename parser, "the text after the final `'.'`,
lowercased (empty string if there is no `'.'`)". -/
def specExtensionRule (s : String) : String :=
  match splitLastDot (strToRaw s) with
  | none => ""
  | some (_, a) => toLowercase ((rawToStr a).getD "")

/-! ## Theorems -/

/-- The stem-membership test inside `find_duplicate_file`, characterised. -/
theorem contains_name_eq_false_iff (R : List Filename) (c : Filename) :
    ((R.map (fun f => f.name)).contains c.name = false) ↔ ∀ r ∈ R, r.name ≠ c.name := by
  constructor
  · intro h r hr hname
    have hmem : c.name ∈ R.map (fun f => f.name) := List.mem_map.mpr ⟨r, hr, hname⟩
    have ht : (R.map (fun f => f.name)).contains c.name = true := List.elem_iff.mpr hmem
    rw [h] at ht
    exact Bool.false_ne_true ht
  · intro h
    rcases Bool.eq_false_or_eq_true ((R.map (fun f => f.name)).contains c.name) with ht | hf
    · have hmem : c.name ∈ R.map (fun f => f.name) := List.elem_iff.mp ht
      rcases List.mem_map.mp hmem with ⟨r, hr, hname⟩
      exact absurd hname (h r hr)
    · exact hf

/-- `find_duplicate_file` is the stable filter by the stem predicate. -/
theorem find_duplicate_file_eq_filter (R C : List Filename) :
    find_duplicate_file R C = C.filter (fun c => decide (∀ r ∈ R, r.name ≠ c.name)) := by
  have hfun : (fun c : Filename => !(R.map (fun f => f.name)).contains c.name)
      = (fun c : Filename => decide (∀ r ∈ R, r.name ≠ c.name)) := by
    funext c
    by_cases h : ∀ r ∈ R, r.name ≠ c.name
    · rw [(contains_name_eq_false_iff R c).mpr h]
      simpa using h
    · have ht : (R.map (fun f => f.name)).contains c.name = true := by
        rcases Bool.eq_false_or_eq_true ((R.map (fun f => f.name)).contains c.name) with ht | hf
        · exact ht
        · exact absurd ((contains_name_eq_false_iff R c).mp hf) h
      rw [ht]
      simp [h]
  simp only [find_duplicate_file]
  rw [hfun]

/-- C1: `find_duplicate_file R C` returns exactly the records of `C` whose
stem matches (by string equality) no stem in `R`; it is a stable filter of
`C` (hence an order-preserving subsequence), and every excluded record of
`C` has some record of `R` sharing its stem. -/
theorem find_duplicate_file_unmatched_spec (R C : List Filename) :
    find_duplicate_file R C = C.filter (fun c => decide (∀ r ∈ R, r.name ≠ c.name))
    ∧ List.Sublist (find_duplicate_file R C) C
    ∧ ∀ c ∈ C, c ∉ find_duplicate_file R C → ∃ r ∈ R, r.name = c.name := by
  refine ⟨find_duplicate_file_eq_filter R C, ?_, ?_⟩
  · rw [find_duplicate_file_eq_filter R C]
    exact List.filter_sublist C
  · intro c hc hnotin
    by_contra hnone
    push_neg at hnone
    apply hnotin
    rw [find_duplicate_file_eq_filter R C]
    refine List.mem_filter.mpr ⟨hc, ?_⟩
    simpa using fun r hr => hnone r hr

/-- Closed instance of `find_duplicate_file_unmatched_spec`: the scenario of
§8 of the specification, reference stems `a`, `b` against candidates
`a`, `c`, `b`, `d`. -/
theorem find_duplicate_file_unmatched_spec_witness :
    find_duplicate_file
        [⟨"a.arw", "a", "arw"⟩, ⟨"b.arw", "b", "arw"⟩]
        [⟨"a.jpg", "a", "jpg"⟩, ⟨"c.jpg", "c", "jpg"⟩, ⟨"b.jpg", "b", "jpg"⟩, ⟨"d.jpg", "d", "jpg"⟩]
      = List.filter (fun c => decide (∀ r ∈ [(⟨"a.arw", "a", "arw"⟩ : Filename), ⟨"b.arw", "b", "arw"⟩], r.name ≠ c.name))
          [⟨"a.jpg", "a", "jpg"⟩, ⟨"c.jpg", "c", "jpg"⟩, ⟨"b.jpg", "b", "jpg"⟩, ⟨"d.jpg", "d", "jpg"⟩]
    ∧ find_duplicate_file
        [⟨"a.arw", "a", "arw"⟩, ⟨"b.arw", "b", "arw"⟩]
        [⟨"a.jpg", "a", "jpg"⟩, ⟨"c.jpg", "c", "jpg"⟩, ⟨"b.jpg", "b", "jpg"⟩, ⟨"d.jpg", "d", "jpg"⟩]
      = [⟨"c.jpg", "c", "jpg"⟩, ⟨"d.jpg", "d", "jpg"⟩] :=
  ⟨(find_duplicate_file_unmatched_spec _ _).1, by decide⟩

/-- C9: no deduplication of candidates — two same-stem candidate records
around arbitrary context, with that stem absent from the reference list, are
both emitted, in order. -/
theorem find_duplicate_file_no_dedup (R X Y Z : List Filename) (a b : Filename)
    (hab : a.name = b.name) (h : ∀ r ∈ R, r.name ≠ a.name) :
    ∃ D1 D2 D3, find_duplicate_file R (X ++ a :: (Y ++ b :: Z)) =
      D1 ++ a :: (D2 ++ b :: D3) := by
  have hb : ∀ r ∈ R, r.name ≠ b.name := fun r hr => hab ▸ h r hr
  refine ⟨X.filter (fun c => decide (∀ r ∈ R, r.name ≠ c.name)),
          Y.filter (fun c => decide (∀ r ∈ R, r.name ≠ c.name)),
          Z.filter (fun c => decide (∀ r ∈ R, r.name ≠ c.name)), ?_⟩
  rw [find_duplicate_file_eq_filter]
  rw [List.filter_append, List.filter_cons_of_pos (by simpa using h),
    List.filter_append, List.filter_cons_of_pos (by simpa using hb)]

/-- Closed instance of `find_duplicate_file_no_dedup`: two JPEG records with
stem `a` and an empty reference list are both kept. -/
theorem find_duplicate_file_no_dedup_witness :
    ∃ D1 D2 D3,
      find_duplicate_file [] [⟨"a.jpg", "a", "jpg"⟩, ⟨"a.jpeg", "a", "jpeg"⟩]
        = D1 ++ ⟨"a.jpg", "a", "jpg"⟩ :: (D2 ++ (⟨"a.jpeg", "a", "jpeg"⟩ : Filename) :: D3) :=
  find_duplicate_file_no_dedup [] [] [] [] ⟨"a.jpg", "a", "jpg"⟩ ⟨"a.jpeg", "a", "jpeg"⟩
    rfl (by simp)

/-- C10: with an empty reference list `find_duplicate_file` is the identity
on candidates, and in general every emitted record is an unmodified record
of the candidate input. -/
theorem find_duplicate_file_identity_on_candidates (R C : List Filename) :
    find_duplicate_file [] C = C ∧ ∀ f ∈ find_duplicate_file R C, f ∈ C := by
  constructor
  · rw [find_duplicate_file_eq_filter]
    simp
  · intro f hf
    rw [find_duplicate_file_eq_filter] at hf
    exact (List.mem_filter.mp hf).1

/-- Closed instance of `find_duplicate_file_identity_on_candidates`. -/
theorem find_duplicate_file_identity_on_candidates_witness :
    find_duplicate_file [] [⟨"a.jpg", "a", "jpg"⟩, ⟨"b.jpg", "b", "jpg"⟩]
      = [⟨"a.jpg", "a", "jpg"⟩, ⟨"b.jpg", "b", "jpg"⟩] :=
  (find_duplicate_file_identity_on_candidates []
    [⟨"a.jpg", "a", "jpg"⟩, ⟨"b.jpg", "b", "jpg"⟩]).1

/-- C2: the deletion dispatcher classifies every attempt into exactly the
three outcomes — launch failure yields `OtherFailure` with the fixed context
diagnostic, a successful exit yields `Deleted`, a failing exit yields
`NotFound` exactly when the stderr text carries the `29:106` signature and
otherwise `OtherFailure` with the raw stderr text. -/
theorem delete_files_classification (osaDelete : String → String → Option OutputM)
    (file : Filename) (folder : String) :
    (delete_files osaDelete file folder = .Deleted
      ∨ delete_files osaDelete file folder = .NotFound
      ∨ ∃ m, delete_files osaDelete file folder = .OtherFailure m)
    ∧ (osaDelete file.filename folder = none →
        delete_files osaDelete file folder
          = .OtherFailure (deleteLaunchFailureDiag file.filename folder))
    ∧ (delete_files osaDelete file folder = .Deleted ↔
        ∃ out, osaDelete file.filename folder = some out ∧ out.success = true)
    ∧ (delete_files osaDelete file folder = .NotFound ↔
        ∃ out, osaDelete file.filename folder = some out ∧ out.success = false
          ∧ strHasSub out.stderr "29:106" = true)
    ∧ (∀ out, osaDelete file.filename folder = some out → out.success = false →
        strHasSub out.stderr "29:106" = false →
        delete_files osaDelete file folder = .OtherFailure out.stderr) := by
  refine ⟨?_, ?_, ?_, ?_, ?_⟩
  · cases hosa : osaDelete file.filename folder with
    | none =>
      exact Or.inr (Or.inr ⟨deleteLaunchFailureDiag file.filename folder,
        by simp [delete_files, hosa]⟩)
    | some out =>
      by_cases hs : out.success
      · exact Or.inl (by simp [delete_files, hosa, print_result, hs])
      · by_cases hn : strHasSub out.stderr "29:106"
        · exact Or.inr (Or.inl (by simp [delete_files, hosa, print_result, hs, hn]))
        · exact Or.inr (Or.inr ⟨out.stderr, by simp [delete_files, hosa, print_result, hs, hn]⟩)
  · intro h
    simp [delete_files, h]
  · cases hosa : osaDelete file.filename folder with
    | none => simp [delete_files, hosa]
    | some out =>
      by_cases hs : out.success
      · simp [delete_files, hosa, print_result, hs]
      · by_cases hn : strHasSub out.stderr "29:106"
        · simp [delete_files, hosa, print_result, hs, hn]
        · simp [delete_files, hosa, print_result, hs, hn]
  · cases hosa : osaDelete file.filename folder with
    | none => simp [delete_files, hosa]
    | some out =>
      by_cases hs : out.success
      · simp [delete_files, hosa, print_result, hs]
      · by_cases hn : strHasSub out.stderr "29:106"
        · simp [delete_files, hosa, print_result, hs, hn]
        · simp [delete_files, hosa, print_result, hs, hn]
  · intro out ho hs hn
    simp [delete_files, ho, print_result, hs, hn]

/-- Closed instance of `delete_files_classification`: a launch failure is
reported with the fixed diagnostic. -/
theorem delete_files_classification_witness :
    delete_files (fun _ _ => none) ⟨"a.jpg", "a", "jpg"⟩ "Disk:JPG:"
      = Outcome.OtherFailure (deleteLaunchFailureDiag "a.jpg" "Disk:JPG:") :=
  (delete_files_classification (fun _ _ => none) ⟨"a.jpg", "a", "jpg"⟩ "Disk:JPG:").2.1 rfl

/-- C4 counterexample: the membership test against `allowed_extensions` is
EXACT, not case-insensitive.  A folder holding `x.arw` scans to a record of
extension `arw`, which equals `ARW` case-insensitively, yet the filter with
allowed set `["ARW"]` drops it. -/
theorem scan_filtered_case_sensitive_cex :
    get_filenames_of_folder (some [some (strToRaw "x.arw")])
      = .ok [Filename.fromDirEntry (strToRaw "x.arw")]
    ∧ eqIgnoreCase (Filename.fromDirEntry (strToRaw "x.arw")).extension "ARW" = true
    ∧ get_filenames_of_folder_with_valid_extension (some [some (strToRaw "x.arw")]) ["ARW"]
      = .ok [] :=
  ⟨rfl, by decide, rfl⟩

/-- The filter keeps nothing when no extension is allowed. -/
theorem filter_extensions_eq_nil (E : List String) (l : List Filename)
    (h : ∀ f ∈ l, E.contains f.extension = false) :
    l.filter (fun f => E.contains f.extension) = [] := by
  induction l with
  | nil => rfl
  | cons f t ih =>
    rw [List.filter_cons_of_neg]
    · exact ih (fun g hg => h g (List.mem_cons_of_mem f hg))
    · simp only [h f (List.mem_cons_self f t)]
      exact Bool.false_ne_true

/-- C4 (amended): `scan_filtered` keeps exactly the records of the scan whose
lowercased `extension` field is a member of `allowed_extensions` under EXACT
string equality (a stable sublist); it returns the empty sequence on an empty
folder and when no record matches. -/
theorem scan_filtered_exact_match_spec (dir : DirListing) (E : List String) :
    (∀ l, get_filenames_of_folder dir = .ok l →
        get_filenames_of_folder_with_valid_extension dir E
          = .ok (l.filter (fun f => E.contains f.extension))
        ∧ List.Sublist (l.filter (fun f => E.contains f.extension)) l)
    ∧ get_filenames_of_folder_with_valid_extension (some []) E = .ok []
    ∧ (∀ l, get_filenames_of_folder dir = .ok l →
        (∀ f ∈ l, E.contains f.extension = false) →
        get_filenames_of_folder_with_valid_extension dir E = .ok []) := by
  refine ⟨?_, rfl, ?_⟩
  · intro l hl
    refine ⟨?_, List.filter_sublist l⟩
    simp [get_filenames_of_folder_with_valid_extension, hl, Except.map]
  · intro l hl hnone
    simp only [get_filenames_of_folder_with_valid_extension, hl, Except.map]
    rw [filter_extensions_eq_nil E l hnone]

/-- Closed instance of `scan_filtered_exact_match_spec`: filtering to `arw`
keeps the `arw` record and drops the `jpg` one. -/
theorem scan_filtered_exact_match_spec_witness :
    get_filenames_of_folder_with_valid_extension
        (some [some (strToRaw "a.arw"), some (strToRaw "b.jpg")]) ["arw"]
      = .ok ([Filename.fromDirEntry (strToRaw "a.arw"),
              Filename.fromDirEntry (strToRaw "b.jpg")].filter
          (fun f => (["arw"] : List String).contains f.extension)) :=
  ((scan_filtered_exact_match_spec
      (some [some (strToRaw "a.arw"), some (strToRaw "b.jpg")]) ["arw"]).1
    [Filename.fromDirEntry (strToRaw "a.arw"), Filename.fromDirEntry (strToRaw "b.jpg")]
    rfl).1

/-- C5 counterexample: for the entry `.gitignore` the parser yields extension
`""` and stem `.gitignore`, although the base name does contain a `'.'` whose
following text is `gitignore`; the claim's "text after the final dot" rule
disagrees with the code on dotfiles. -/
theorem filename_parser_hidden_file_cex :
    (Filename.fromDirEntry (strToRaw ".gitignore")).extension = ""
    ∧ specExtensionRule ".gitignore" = "gitignore"
    ∧ (Filename.fromDirEntry (strToRaw ".gitignore")).extension
        ≠ specExtensionRule ".gitignore" :=
  ⟨rfl, rfl, by decide⟩

/-- C5 (amended): the parser is total (no error is ever signaled) and derives
`full_name` as the base name's text (`""` when not representable); when the
base name has a final `'.'` that is neither its first character nor part of
the name `".."`, `stem` is the part before it and `extension` the lowercased
text after it; when the name has no `'.'` its stem is the whole name and its
extension `""`; a leading-dot-only name and `".."` also keep the whole name
as stem with extension `""`. -/
theorem filename_parser_spec (entry : RawName) :
    ((∀ s, rawToStr entry = some s → (Filename.fromDirEntry entry).filename = s)
      ∧ (rawToStr entry = none → (Filename.fromDirEntry entry).filename = ""))
    ∧ (∀ b a, entry ≠ strToRaw ".." → splitLastDot entry = some (b, a) → b ≠ [] →
        (Filename.fromDirEntry entry).name = osToStrOrEmpty (some b)
        ∧ (Filename.fromDirEntry entry).extension = toLowercase (osToStrOrEmpty (some a)))
    ∧ (splitLastDot entry = none →
        (Filename.fromDirEntry entry).name = osToStrOrEmpty (some entry)
        ∧ (Filename.fromDirEntry entry).extension = "")
    ∧ (∀ a, splitLastDot entry = some ([], a) →
        (Filename.fromDirEntry entry).name = osToStrOrEmpty (some entry)
        ∧ (Filename.fromDirEntry entry).extension = "")
    ∧ ((Filename.fromDirEntry (strToRaw "..")).name = ".."
        ∧ (Filename.fromDirEntry (strToRaw "..")).extension = "") := by
  refine ⟨⟨?_, ?_⟩, ?_, ?_, ?_, by decide⟩
  · intro s hs
    simp [Filename.fromDirEntry, osToStrOrEmpty, hs]
  · intro hs
    simp [Filename.fromDirEntry, osToStrOrEmpty, hs]
  · intro b a hne hsplit hb
    have hne' : entry ≠ [some '.', some '.'] := by
      intro he
      exact hne (by rw [he]; decide)
    have hr : rsplitFileAtDot entry = (some b, some a) := by
      simp [rsplitFileAtDot, hne', hsplit, hb]
    constructor
    · simp [Filename.fromDirEntry, fileStem, hr, Option.or]
    · simp [Filename.fromDirEntry, pathExtension, hr]
  · intro hsplit
    have hne' : entry ≠ [some '.', some '.'] := by
      intro he
      rw [he] at hsplit
      exact absurd hsplit (by decide)
    have hr : rsplitFileAtDot entry = (none, some entry) := by
      simp [rsplitFileAtDot, hne', hsplit]
    constructor
    · simp [Filename.fromDirEntry, fileStem, hr, Option.or]
    · simp [Filename.fromDirEntry, pathExtension, hr, toLowercase, osToStrOrEmpty]
  · intro a hsplit
    by_cases hne' : entry = [some '.', some '.']
    · rw [hne']
      exact (by decide)
    · have hr : rsplitFileAtDot entry = (some entry, none) := by
        simp [rsplitFileAtDot, hne', hsplit]
      constructor
      · simp [Filename.fromDirEntry, fileStem, hr, Option.or]
      · simp [Filename.fromDirEntry, pathExtension, hr, toLowercase, osToStrOrEmpty]

/-- Closed instance of `filename_parser_spec`: `IMG001.ARW` parses to stem
`IMG001` and lowercased extension `arw`. -/
theorem filename_parser_spec_witness :
    (Filename.fromDirEntry (strToRaw "IMG001.ARW")).name
        = osToStrOrEmpty (some (strToRaw "IMG001"))
    ∧ (Filename.fromDirEntry (strToRaw "IMG001.ARW")).extension
        = toLowercase (osToStrOrEmpty (some (strToRaw "ARW"))) :=
  (filename_parser_spec (strToRaw "IMG001.ARW")).2.1 (strToRaw "IMG001") (strToRaw "ARW")
    (by decide) (by decide) (by decide)

/-- C6: path localization fails exactly when the path is not representable as
text, or the automation invocation yields no output, or its output is not
valid text; otherwise it returns the trimmed output text. -/
theorem convert_to_hfs_path_error_iff (osa : String → Option RawName) (path : RawName) :
    (convert_to_hfs_path osa path = .error .conversionError ↔
      (rawToStr path = none
        ∨ (∃ p, rawToStr path = some p ∧ osa p = none)
        ∨ (∃ p bs, rawToStr path = some p ∧ osa p = some bs ∧ rawToStr bs = none)))
    ∧ (∀ p bs s, rawToStr path = some p → osa p = some bs → rawToStr bs = some s →
        convert_to_hfs_path osa path = .ok s.trim) := by
  constructor
  · cases hp : rawToStr path with
    | none => simp [convert_to_hfs_path, hp]
    | some p =>
      cases ho : osa p with
      | none => simp [convert_to_hfs_path, hp, ho]
      | some bs =>
        cases hb : rawToStr bs with
        | none => simp [convert_to_hfs_path, hp, ho, hb]
        | some s => simp [convert_to_hfs_path, hp, ho, hb]
  · intro p bs s hp ho hb
    simp [convert_to_hfs_path, hp, ho, hb]

/-- Closed instance of `convert_to_hfs_path_error_iff`: a successful
invocation returns its trimmed stdout text. -/
theorem convert_to_hfs_path_error_iff_witness :
    convert_to_hfs_path (fun _ => some (strToRaw "Disk:JPG:\n")) (strToRaw "/a/JPG")
      = .ok (("Disk:JPG:\n").trim) :=
  (convert_to_hfs_path_error_iff (fun _ => some (strToRaw "Disk:JPG:\n"))
      (strToRaw "/a/JPG")).2
    "/a/JPG" (strToRaw "Disk:JPG:\n") "Disk:JPG:\n" (by decide) rfl (by decide)

/-- `filter_map` over `Ok` entries is a map over the readable entries. -/
theorem filterMap_entries_eq_map (entries : List (Option RawName)) :
    entries.filterMap (fun file => file.map Filename.fromDirEntry)
      = (entries.filterMap id).map Filename.fromDirEntry := by
  induction entries with
  | nil => rfl
  | cons e t ih => cases e <;> simp [List.filterMap_cons, ih]

/-- C7: the scan fails (with the IO error) exactly when the folder itself
cannot be opened; otherwise it returns one record per readable entry, with
unreadable entries silently omitted and never causing a failure. -/
theorem get_filenames_of_folder_error_iff (dir : DirListing) :
    ((∃ e, get_filenames_of_folder dir = .error e) ↔ dir = none)
    ∧ (get_filenames_of_folder none = .error .ioError)
    ∧ (∀ entries, dir = some entries →
        get_filenames_of_folder dir
          = .ok ((entries.filterMap id).map Filename.fromDirEntry)) := by
  refine ⟨?_, rfl, ?_⟩
  · cases dir with
    | none => simp [get_filenames_of_folder]
    | some entries => simp [get_filenames_of_folder]
  · intro entries hd
    subst hd
    simp [get_filenames_of_folder, filterMap_entries_eq_map]

/-- Closed instance of `get_filenames_of_folder_error_iff`: a folder with one
readable and one unreadable entry lists exactly the readable one. -/
theorem get_filenames_of_folder_error_iff_witness :
    get_filenames_of_folder (some [some (strToRaw "a.arw"), none])
      = .ok (([some (strToRaw "a.arw"), none].filterMap id).map Filename.fromDirEntry) :=
  (get_filenames_of_folder_error_iff (some [some (strToRaw "a.arw"), none])).2.2
    [some (strToRaw "a.arw"), none] rfl

/-- `convert_to_hfs_path` only ever fails with the conversion error. -/
theorem convert_to_hfs_path_error_val (osa : String → Option RawName) (path : RawName)
    (e : FatalError) (h : convert_to_hfs_path osa path = .error e) :
    e = FatalError.conversionError := by
  unfold convert_to_hfs_path at h
  cases hp : rawToStr path with
  | none =>
    simp only [hp] at h
    exact (Except.error.inj h).symm
  | some p =>
    simp only [hp] at h
    cases ho : osa p with
    | none =>
      simp only [ho] at h
      exact (Except.error.inj h).symm
    | some bs =>
      simp only [ho] at h
      cases hb : rawToStr bs with
      | none =>
        simp only [hb] at h
        exact (Except.error.inj h).symm
      | some s =>
        simp only [hb] at h
        exact Except.noConfusion h

/-- A run whose four preconditions all succeed is the deletion trace over the
unmatched set followed by the completion event. -/
theorem main_run_ok (env : Env) (p hfs : String) (raw_files jpg_files : List Filename)
    (hp : env.pwd = some p)
    (hh : convert_to_hfs_path env.osaLocalize
        (strToRaw (joinPath p JPG_FOLDER)) = .ok hfs)
    (hr : get_filenames_of_folder_with_valid_extension env.raw_dir
        RAW_ALLOWED_FILE_EXTENSIONS = .ok raw_files)
    (hj : get_filenames_of_folder_with_valid_extension env.jpg_dir
        JPG_ALLOWED_FILE_EXTENSIONS = .ok jpg_files) :
    main_run env = (find_duplicate_file raw_files jpg_files).map
        (fun file => Event.deletionAttempt file.filename
          (delete_files env.osaDelete file hfs)) ++ [Event.done] := by
  simp [main_run, hp, hh, hr, hj]

/-- A deletion trace followed by the completion event holds no fatal event,
so the exit-status scan accepts it. -/
theorem exit_ok_of_trace (l : List Filename) (g : Filename → Event) :
    ((l.map g) ++ [Event.done]).all
        (fun ev => match ev with | .fatal _ => false | _ => true) = true
      ↔ ∀ f ∈ l, (match g f with | Event.fatal _ => false | _ => true) = true := by
  simp [List.all_append]

/-- No fatal event occurs in a deletion trace. -/
theorem fatal_not_mem_trace (l : List Filename) (g : Filename → Outcome) (e : FatalError) :
    Event.fatal e ∉ (l.map (fun file => Event.deletionAttempt file.filename (g file))
      ++ [Event.done]) := by
  intro h
  rcases List.mem_append.mp h with h1 | h2
  · rcases List.mem_map.mp h1 with ⟨f, _, hf⟩
    exact Event.noConfusion hf
  · exact Event.noConfusion (List.mem_singleton.mp h2)

/-- The listing wrappers succeed on a readable folder. -/
theorem scan_filtered_ok_of_some (entries : List (Option RawName)) (E : List String) :
    get_filenames_of_folder_with_valid_extension (some entries) E
      = .ok (((entries.filterMap (fun file => file.map Filename.fromDirEntry)).filter
          (fun file => E.contains file.extension))) := by
  simp [get_filenames_of_folder_with_valid_extension, get_filenames_of_folder, Except.map]

/-- C3: the run exits with failure only when a precondition (working-folder
resolution, path localization, or one of the two folder listings) fails;
whenever all four succeed, the run attempts every deletion of the unmatched
set and exits successfully, whatever the individual deletion results are. -/
theorem main_exit_spec (env : Env) :
    (main_exit_ok env = false →
        env.pwd = none
      ∨ (∃ p, env.pwd = some p ∧ convert_to_hfs_path env.osaLocalize
            (strToRaw (joinPath p JPG_FOLDER)) = .error .conversionError)
      ∨ env.raw_dir = none
      ∨ env.jpg_dir = none)
    ∧ (∀ p hfs raw_files jpg_files,
        env.pwd = some p →
        convert_to_hfs_path env.osaLocalize
            (strToRaw (joinPath p JPG_FOLDER)) = .ok hfs →
        get_filenames_of_folder_with_valid_extension env.raw_dir
            RAW_ALLOWED_FILE_EXTENSIONS = .ok raw_files →
        get_filenames_of_folder_with_valid_extension env.jpg_dir
            JPG_ALLOWED_FILE_EXTENSIONS = .ok jpg_files →
        main_run env = (find_duplicate_file raw_files jpg_files).map
            (fun file => Event.deletionAttempt file.filename
              (delete_files env.osaDelete file hfs)) ++ [Event.done]
        ∧ main_exit_ok env = true) := by
  have hok : ∀ (p hfs : String) (raw_files jpg_files : List Filename),
      env.pwd = some p →
      convert_to_hfs_path env.osaLocalize (strToRaw (joinPath p JPG_FOLDER)) = .ok hfs →
      get_filenames_of_folder_with_valid_extension env.raw_dir
          RAW_ALLOWED_FILE_EXTENSIONS = .ok raw_files →
      get_filenames_of_folder_with_valid_extension env.jpg_dir
          JPG_ALLOWED_FILE_EXTENSIONS = .ok jpg_files →
      main_exit_ok env = true := by
    intro p hfs raw_files jpg_files hp hh hr hj
    rw [main_exit_ok, main_run_ok env p hfs raw_files jpg_files hp hh hr hj]
    rw [exit_ok_of_trace]
    intro f _
    rfl
  constructor
  · intro hfail
    cases hp : env.pwd with
    | none => exact Or.inl rfl
    | some p =>
      cases hh : convert_to_hfs_path env.osaLocalize
          (strToRaw (joinPath p JPG_FOLDER)) with
      | error e =>
        refine Or.inr (Or.inl ⟨p, rfl, ?_⟩)
        rw [← convert_to_hfs_path_error_val env.osaLocalize _ e hh]
        exact hh
      | ok hfs =>
        cases hr : env.raw_dir with
        | none => exact Or.inr (Or.inr (Or.inl rfl))
        | some raws =>
          cases hj : env.jpg_dir with
          | none => exact Or.inr (Or.inr (Or.inr rfl))
          | some jpgs =>
            exfalso
            have ht : main_exit_ok env = true :=
              hok p hfs _ _ hp hh
                (by rw [hr]; exact scan_filtered_ok_of_some raws RAW_ALLOWED_FILE_EXTENSIONS)
                (by rw [hj]; exact scan_filtered_ok_of_some jpgs JPG_ALLOWED_FILE_EXTENSIONS)
            rw [ht] at hfail
            exact Bool.noConfusion hfail
  · intro p hfs raw_files jpg_files hp hh hr hj
    exact ⟨main_run_ok env p hfs raw_files jpg_files hp hh hr hj,
      hok p hfs raw_files jpg_files hp hh hr hj⟩

/-- Closed instance of `main_exit_spec`: one RAW file, two JPEG files, every
deletion call failing to launch — the run still attempts both deletions and
exits successfully. -/
theorem main_exit_spec_witness :
    main_run ⟨some "/p", fun _ => some (strToRaw "Disk:JPG:"),
        some [some (strToRaw "a.arw")],
        some [some (strToRaw "a.jpg"), some (strToRaw "b.jpg")],
        fun _ _ => none⟩
      = (find_duplicate_file
          [Filename.fromDirEntry (strToRaw "a.arw")]
          [Filename.fromDirEntry (strToRaw "a.jpg"), Filename.fromDirEntry (strToRaw "b.jpg")]).map
          (fun file => Event.deletionAttempt file.filename
            (delete_files (fun _ _ => none) file (("Disk:JPG:").trim)))
        ++ [Event.done]
    ∧ main_exit_ok ⟨some "/p", fun _ => some (strToRaw "Disk:JPG:"),
        some [some (strToRaw "a.arw")],
        some [some (strToRaw "a.jpg"), some (strToRaw "b.jpg")],
        fun _ _ => none⟩ = true :=
  (main_exit_spec _).2 "/p" (("Disk:JPG:").trim)
    [Filename.fromDirEntry (strToRaw "a.arw")]
    [Filename.fromDirEntry (strToRaw "a.jpg"), Filename.fromDirEntry (strToRaw "b.jpg")]
    rfl rfl rfl rfl

/-- C8: temporal safety of the pipeline — a run that hit a fatal error is
exactly that single fatal event, with no deletion attempted; and any deletion
attempt in a trace implies the working folder resolved, the localization
returned a path, both listings were readable, and no fatal event occurred. -/
theorem main_no_deletion_before_preconditions (env : Env) :
    (∀ e, Event.fatal e ∈ main_run env →
        main_run env = [Event.fatal e]
        ∧ ∀ f o, Event.deletionAttempt f o ∉ main_run env)
    ∧ (∀ f o, Event.deletionAttempt f o ∈ main_run env →
        (∃ p, env.pwd = some p
          ∧ ∃ hfs, convert_to_hfs_path env.osaLocalize
              (strToRaw (joinPath p JPG_FOLDER)) = .ok hfs)
        ∧ env.raw_dir ≠ none ∧ env.jpg_dir ≠ none
        ∧ ∀ e, Event.fatal e ∉ main_run env) := by
  cases hp : env.pwd with
  | none =>
    have hrun : main_run env = [Event.fatal .pathResolutionError] := by
      simp [main_run, hp]
    rw [hrun]
    constructor
    · intro e he
      rw [List.mem_singleton.mp he]
      exact ⟨rfl, fun f o hmem => Event.noConfusion (List.mem_singleton.mp hmem)⟩
    · intro f o hmem
      exact absurd (List.mem_singleton.mp hmem) (fun h => Event.noConfusion h)
  | some p =>
    cases hh : convert_to_hfs_path env.osaLocalize
        (strToRaw (joinPath p JPG_FOLDER)) with
    | error e0 =>
      have hrun : main_run env = [Event.fatal e0] := by
        simp [main_run, hp, hh]
      rw [hrun]
      constructor
      · intro e he
        rw [List.mem_singleton.mp he]
        exact ⟨rfl, fun f o hmem => Event.noConfusion (List.mem_singleton.mp hmem)⟩
      · intro f o hmem
        exact absurd (List.mem_singleton.mp hmem) (fun h => Event.noConfusion h)
    | ok hfs =>
      cases hr : env.raw_dir with
      | none =>
        have hrun : main_run env = [Event.fatal .ioError] := by
          simp [main_run, hp, hh, hr, get_filenames_of_folder_with_valid_extension,
            get_filenames_of_folder, Except.map]
        rw [hrun]
        constructor
        · intro e he
          rw [List.mem_singleton.mp he]
          exact ⟨rfl, fun f o hmem => Event.noConfusion (List.mem_singleton.mp hmem)⟩
        · intro f o hmem
          exact absurd (List.mem_singleton.mp hmem) (fun h => Event.noConfusion h)
      | some raws =>
        cases hj : env.jpg_dir with
        | none =>
          have hrun : main_run env = [Event.fatal .ioError] := by
            simp [main_run, hp, hh, hr, hj, get_filenames_of_folder_with_valid_extension,
              get_filenames_of_folder, Except.map]
          rw [hrun]
          constructor
          · intro e he
            rw [List.mem_singleton.mp he]
            exact ⟨rfl, fun f o hmem => Event.noConfusion (List.mem_singleton.mp hmem)⟩
          · intro f o hmem
            exact absurd (List.mem_singleton.mp hmem) (fun h => Event.noConfusion h)
        | some jpgs =>
          have hrun := main_run_ok env p hfs _ _ hp hh
            (by rw [hr]; exact scan_filtered_ok_of_some raws RAW_ALLOWED_FILE_EXTENSIONS)
            (by rw [hj]; exact scan_filtered_ok_of_some jpgs JPG_ALLOWED_FILE_EXTENSIONS)
          constructor
          · intro e he
            rw [hrun] at he
            exact absurd he (fatal_not_mem_trace _ _ e)
          · intro f o _
            refine ⟨⟨p, rfl, hfs, hh⟩, fun h => Option.noConfusion h,
              fun h => Option.noConfusion h, ?_⟩
            intro e
            rw [hrun]
            exact fatal_not_mem_trace _ _ e

/-- Closed instance of `main_no_deletion_before_preconditions`: when the
working folder cannot be resolved the whole trace is the single fatal
event. -/
theorem main_no_deletion_before_preconditions_witness :
    main_run ⟨none, fun _ => none, none, none, fun _ _ => none⟩
      = [Event.fatal FatalError.pathResolutionError] :=
  ((main_no_deletion_before_preconditions
      ⟨none, fun _ => none, none, none, fun _ _ => none⟩).1
    FatalError.pathResolutionError (by simp [main_run])).1
